import Mathlib

set_option linter.unusedVariables false

/-! Verification development for the Arogya wellness backend.

Python strings are modelled as lists of characters (`Str`), Python `None`
via `Option`, fallible code via `Option`/`Except`.  The orchestration
pipeline (`services/orchestrator.py`), the markdown summary builder, the
JSON recovery logic and the user-auth store (`services/user_auth_store.py`)
are embedded from the source; the credential pool, conversation memory and
history sink live in modules that are not part of the source tree and are
modelled from the specification (see the doc comment of each). -/

abbrev Str := List Char

def chars (s : String) : Str := s.data

/-- Python whitespace for `str.strip` (ASCII fragment). -/
def isPySpace (c : Char) : Bool :=
  c == ' ' || c == '\t' || c == '\n' || c == '\x0d' || c == '\x0b' || c == '\x0c'

/-- JSON whitespace skipped by `json.loads` between tokens. -/
def isJsonWs (c : Char) : Bool :=
  c == ' ' || c == '\t' || c == '\n' || c == '\x0d'

/-- Left part of Python `str.strip()`. -/
def lstrip (s : Str) : Str := s.dropWhile isPySpace

/-- Right part of Python `str.strip()`. -/
def rstrip (s : Str) : Str := (s.reverse.dropWhile isPySpace).reverse

/-- Python `str.strip()`. -/
def pyStrip (s : Str) : Str := rstrip (lstrip s)

def skipWs (s : Str) : Str := s.dropWhile isJsonWs

/-- The lines of a string, split at every newline character (used to state
the no-consecutive-blank-lines property of the rendered summary). -/
def linesOf : Str → List Str
  | [] => [[]]
  | c :: cs =>
    if c = '\n' then [] :: linesOf cs
    else
      match linesOf cs with
      | [] => [[c]]
      | l :: ls => (c :: l) :: ls

/-- Values produced by `json.loads`.  Numbers keep their source lexeme:
no claim depends on numeric values, only on whether the text parses. -/
inductive Json where
  | null : Json
  | jbool : Bool → Json
  | jnum : Str → Json
  | jstr : Str → Json
  | jarr : List Json → Json
  | jobj : List (Str × Json) → Json

/-- Python-dict lookup for a decoded JSON object: with duplicate keys the
later member wins, exactly as in the dict `json.loads` builds. -/
def lookupLast (kvs : List (Str × Json)) (k : Str) : Option Json :=
  ((kvs.filter (fun p => p.1 == k)).getLast?).map (fun p => p.2)

/-- One simple-escape character of a JSON string literal. -/
def escChar (e : Char) : Option Char :=
  if e = '"' then some '"'
  else if e = '\\' then some '\\'
  else if e = '/' then some '/'
  else if e = 'b' then some '\x08'
  else if e = 'f' then some '\x0c'
  else if e = 'n' then some '\n'
  else if e = 'r' then some '\x0d'
  else if e = 't' then some '\t'
  else none

def hexVal (c : Char) : Option Nat :=
  if 48 ≤ c.toNat ∧ c.toNat ≤ 57 then some (c.toNat - 48)
  else if 97 ≤ c.toNat ∧ c.toNat ≤ 102 then some (c.toNat - 87)
  else if 65 ≤ c.toNat ∧ c.toNat ≤ 70 then some (c.toNat - 55)
  else none

def parseHex4 (s : Str) : Option (Nat × Str) :=
  match s with
  | a :: b :: c :: d :: r =>
    match hexVal a, hexVal b, hexVal c, hexVal d with
    | some x, some y, some z, some w => some (((x * 16 + y) * 16 + z) * 16 + w, r)
    | _, _, _, _ => none
  | _ => none

/-- Body of a JSON string literal, after the opening quote.  Surrogate
pairs in `\u` escapes are combined as in CPython's decoder; a lone
surrogate (which Lean's `Char` cannot represent) degrades to `Char.ofNat`'s
default — no claim exercises that corner. -/
def parseStringBody : Nat → Str → Option (Str × Str)
  | 0, _ => none
  | fuel + 1, s =>
    match s with
    | [] => none
    | c :: r =>
      if c = '"' then some ([], r)
      else if c = '\\' then
        match r with
        | [] => none
        | e :: r2 =>
          if e = 'u' then
            match parseHex4 r2 with
            | some (code, r3) =>
              if 0xD800 ≤ code ∧ code ≤ 0xDBFF then
                match r3 with
                | '\\' :: 'u' :: r4 =>
                  match parseHex4 r4 with
                  | some (code2, r5) =>
                    if 0xDC00 ≤ code2 ∧ code2 ≤ 0xDFFF then
                      match parseStringBody fuel r5 with
                      | some (cs, rest) =>
                        some (Char.ofNat (0x10000 + (code - 0xD800) * 0x400 + (code2 - 0xDC00)) :: cs, rest)
                      | none => none
                    else
                      match parseStringBody fuel r3 with
                      | some (cs, rest) => some (Char.ofNat code :: cs, rest)
                      | none => none
                  | none => none
                | _ =>
                  match parseStringBody fuel r3 with
                  | some (cs, rest) => some (Char.ofNat code :: cs, rest)
                  | none => none
              else
                match parseStringBody fuel r3 with
                | some (cs, rest) => some (Char.ofNat code :: cs, rest)
                | none => none
            | none => none
          else
            match escChar e with
            | some ch =>
              match parseStringBody fuel r2 with
              | some (cs, rest) => some (ch :: cs, rest)
              | none => none
            | none => none
      else if c.toNat < 0x20 then none
      else
        match parseStringBody fuel r with
        | some (cs, rest) => some (c :: cs, rest)
        | none => none

/-- Optional fraction part of a JSON number (CPython `NUMBER_RE`). -/
def fracLex (s : Str) : Str × Str :=
  match s with
  | '.' :: r =>
    let ds := r.takeWhile Char.isDigit
    if ds = [] then ([], s) else ('.' :: ds, r.dropWhile Char.isDigit)
  | _ => ([], s)

/-- Optional exponent part of a JSON number (CPython `NUMBER_RE`). -/
def expLex (s : Str) : Str × Str :=
  match s with
  | c :: r =>
    if c = 'e' ∨ c = 'E' then
      match r with
      | sg :: r2 =>
        if sg = '+' ∨ sg = '-' then
          let ds := r2.takeWhile Char.isDigit
          if ds = [] then ([], s) else (c :: sg :: ds, r2.dropWhile Char.isDigit)
        else
          let ds := r.takeWhile Char.isDigit
          if ds = [] then ([], s) else (c :: ds, r.dropWhile Char.isDigit)
      | [] => ([], s)
    else ([], s)
  | [] => ([], s)

/-- A JSON number lexeme: `-?(0|[1-9][0-9]*)(\.[0-9]+)?([eE][+-]?[0-9]+)?`. -/
def parseNumberLex (s : Str) : Option (Str × Str) :=
  let p : Str × Str := match s with
    | '-' :: r => (['-'], r)
    | _ => ([], s)
  match p.2 with
  | '0' :: r =>
    let fr := fracLex r
    let ex := expLex fr.2
    some (p.1 ++ '0' :: (fr.1 ++ ex.1), ex.2)
  | c :: r =>
    if c.isDigit then
      let ds := r.takeWhile Char.isDigit
      let r1 := r.dropWhile Char.isDigit
      let fr := fracLex r1
      let ex := expLex fr.2
      some (p.1 ++ c :: (ds ++ fr.1 ++ ex.1), ex.2)
    else none
  | [] => none

mutual

/-- One JSON value starting at `s` (whitespace already skipped), following
CPython's `json` scanner.  The fuel strictly exceeds the input length, so
it never runs out: every recursive call first consumes a character. -/
def parseValue : Nat → Str → Option (Json × Str)
  | 0, _ => none
  | fuel + 1, s =>
    match s with
    | [] => none
    | c :: rest =>
      if c = '\x7b' then
        match skipWs rest with
        | '\x7d' :: r2 => some (.jobj [], r2)
        | r => match parseMembers fuel r with
               | some (kvs, r2) => some (.jobj kvs, r2)
               | none => none
      else if c = '[' then
        match skipWs rest with
        | ']' :: r2 => some (.jarr [], r2)
        | r => match parseElems fuel r with
               | some (vs, r2) => some (.jarr vs, r2)
               | none => none
      else if c = '"' then
        match parseStringBody (rest.length + 1) rest with
        | some (cs, r2) => some (.jstr cs, r2)
        | none => none
      else if s.take 4 = chars ("true") then some (.jbool true, s.drop 4)
      else if s.take 5 = chars ("false") then some (.jbool false, s.drop 5)
      else if s.take 4 = chars ("null") then some (.null, s.drop 4)
      else if s.take 3 = chars ("NaN") then some (.jnum (chars ("NaN")), s.drop 3)
      else if s.take 8 = chars ("Infinity") then some (.jnum (chars ("Infinity")), s.drop 8)
      else if s.take 9 = chars ("-Infinity") then some (.jnum (chars ("-Infinity")), s.drop 9)
      else
        match parseNumberLex s with
        | some (lex, r) => some (.jnum lex, r)
        | none => none

/-- Members of a JSON object, positioned at a key (whitespace skipped). -/
def parseMembers : Nat → Str → Option (List (Str × Json) × Str)
  | 0, _ => none
  | fuel + 1, s =>
    match s with
    | '"' :: r =>
      match parseStringBody (r.length + 1) r with
      | some (k, r2) =>
        match skipWs r2 with
        | ':' :: r4 =>
          match parseValue fuel (skipWs r4) with
          | some (v, r5) =>
            match skipWs r5 with
            | ',' :: r7 =>
              match parseMembers fuel (skipWs r7) with
              | some (kvs, r8) => some ((k, v) :: kvs, r8)
              | none => none
            | '\x7d' :: r7 => some ([(k, v)], r7)
            | _ => none
          | none => none
        | _ => none
      | none => none
    | _ => none

/-- Elements of a JSON array, positioned at a value (whitespace skipped). -/
def parseElems : Nat → Str → Option (List Json × Str)
  | 0, _ => none
  | fuel + 1, s =>
    match parseValue fuel s with
    | some (v, r) =>
      match skipWs r with
      | ',' :: r2 =>
        match parseElems fuel (skipWs r2) with
        | some (vs, r3) => some (v :: vs, r3)
        | none => none
      | ']' :: r2 => some ([v], r2)
      | _ => none
    | none => none

end

/-- `json.loads`: one value, with surrounding whitespace, nothing else. -/
def parseJson (s : Str) : Option Json :=
  match parseValue (s.length + 1) (skipWs s) with
  | some (v, rest) => if skipWs rest = [] then some v else none
  | none => none

/-! ## Synthesizer output recovery (orchestrator.py, lines 126-151) -/

def sgKey : Str := chars ("synthesized_guidance")

def recKey : Str := chars ("recommendations")

/-- The two regex substitutions of `orchestrate` that remove a leading and
a trailing code fence (lines 131-133): inside `if raw.startswith("```")`,
first drop a prefix matching the pattern backticks-letters-whitespace, then
drop a suffix matching whitespace-backticks (where the end anchor also
matches just before a final newline, as in Python's `re`). -/
def dropTrailingFence (r1 : Str) : Str :=
  if r1.reverse.take 3 = chars ("```") then
    rstrip ((r1.reverse.drop 3).reverse)
  else if r1.reverse.take 4 = '\n' :: chars ("```") then
    rstrip ((r1.reverse.drop 4).reverse) ++ ['\n']
  else r1

def stripFences (raw : Str) : Str :=
  if raw.take 3 = chars ("```") then
    dropTrailingFence (List.dropWhile isPySpace (List.dropWhile Char.isAlpha (raw.drop 3)))
  else raw

/-- JSON cleaning, parsing and field extraction of `orchestrate` (lines
126-151): strip the reply, strip fences, try `json.loads`; on parse
failure fall back to the dict with the whole raw text as guidance and an
empty recommendation list; then read the two fields with `.get` defaults.
`none` models the uncaught `AttributeError` raised by `.get` when the
parsed value is not a dict. -/
def processContent (content : Str) : Option (Json × Json) :=
  let raw := stripFences (pyStrip content)
  match parseJson raw with
  | some (.jobj kvs) =>
    some ((lookupLast kvs sgKey).getD (.jstr []), (lookupLast kvs recKey).getD (.jarr []))
  | some _ => none
  | none => some (.jstr raw, .jarr [])

/-! ## Markdown summary (`_build_markdown_table`, orchestrator.py 31-49) -/

def headingOf (title : Str) : Str := chars ("**") ++ title ++ chars ("**")

/-- `add_block` of `_build_markdown_table`: skip falsy (empty) text,
otherwise append a blank separator line when parts is non-empty, then the
heading and the stripped text. -/
def addBlock (parts : List Str) (title text : Str) : List Str :=
  if text = [] then parts
  else (if parts = [] then parts else parts ++ [[]]) ++ [headingOf title, pyStrip text]

/-- `"\n".join` / the spec-side joining of blocks by a separator. -/
def joinSep (sep : Str) : List Str → Str
  | [] => []
  | [x] => x
  | x :: y :: xs => x ++ sep ++ joinSep sep (y :: xs)

/-- `_build_markdown_table`, applied to the four stage outputs stored in
the result dict. -/
def _build_markdown_table (sy l d f : Str) : Str :=
  joinSep (chars ("\n"))
    (addBlock
      (addBlock
        (addBlock
          (addBlock [] (chars ("Symptom agent")) sy)
          (chars ("Lifestyle agent")) l)
        (chars ("Diet agent")) d)
      (chars ("Fitness agent")) f)

/-! ## Credential pool

Modelled from the spec: `services/api_key_pool.py` (`get_next_key`,
`mark_key_quota_exceeded`) is not part of the source tree.  Spec §3/§4.1:
an ordered sequence of credentials with state available/exhausted plus a
rotation cursor; `acquire` returns the next available credential advancing
the cursor cyclically and skipping exhausted entries, and fails with a
pool-exhausted condition if none remain; `markExhausted` stickily flips a
credential's state and is idempotent. -/

structure Credential where
  key : Str
  exhausted : Bool

structure Pool where
  creds : List Credential
  cursor : Nat

/-- Whether the credential at index `i` exists and is available. -/
def availAt (p : Pool) (i : Nat) : Bool :=
  match p.creds[i]? with
  | some c => !c.exhausted
  | none => false

/-- The cyclic scan order starting at the cursor. -/
def scanOrder (p : Pool) : List Nat :=
  (List.range p.creds.length).map (fun i => (p.cursor + i) % p.creds.length)

/-- Modelled from the spec: `acquire` (source `get_next_key`). -/
def acquire (p : Pool) : Option (Str × Pool) :=
  match (scanOrder p).find? (fun i => availAt p i) with
  | some i =>
    match p.creds[i]? with
    | some c => some (c.key, ⟨p.creds, (i + 1) % p.creds.length⟩)
    | none => none
  | none => none

/-- Modelled from the spec: `markExhausted` (source
`mark_key_quota_exceeded`); sticky and idempotent, keyed by credential. -/
def markExhausted (k : Str) (p : Pool) : Pool :=
  ⟨p.creds.map (fun c => if c.key == k then ⟨c.key, true⟩ else c), p.cursor⟩

/-! ## Orchestration run (orchestrator.py, `orchestrate`) -/

inductive Role where
  | system : Role
  | human : Role
  | agent : Role

/-- A conversation turn.  Modelled from the spec (§3): the shared memory
module `services/memory.py` is not part of the source tree; per spec each
completed stage appends its output as one turn. -/
structure Turn where
  role : Role
  content : Str

/-- The four stage agents and the synthesizer LLM, as black-box oracles
(spec §1: external reasoning agents are specified only at their
interface).  `synth` maps the credential used to the outcome of
`synth_llm.ainvoke`; `.error` models a raised exception. -/
structure Agents where
  symptom : Str → Str
  lifestyle : Str → Str
  diet : Str → Option Str → Str → Str
  fitness : Str → Str → Str
  synth : Str → Except Unit Str

inductive SynthFailure where
  | poolExhausted : SynthFailure
  | llmFailed : SynthFailure

inductive RunError where
  | synth : SynthFailure → RunError
  | attributeError : RunError

/-- One external call made during a run, with its inputs and output. -/
inductive Event where
  | symptomCall : Str → Str → Event
  | lifestyleCall : Str → Str → Event
  | dietCall : Str → Option Str → Str → Str → Event
  | fitnessCall : Str → Str → Event
  | synthCall : Str → Except Unit Str → Event

/-- The result dict of `orchestrate` (lines 143-155). -/
structure Output where
  user_id : Str
  query : Str
  symptom_analysis : Str
  lifestyle : Str
  diet : Str
  fitness : Str
  synthesized_guidance : Json
  recommendations : Json
  table_markdown : Str

/-- History sink.  Modelled from the spec (§4.4): `services/history_store.py`
(`save_history`, `get_history`) is not part of the source tree.  The log is
an append-only sequence of (user, record) entries. -/
abbrev History := List (Str × Output)

/-- Modelled from the spec: `append(user_id, record)` adds the record to
that user's ordered history. -/
def histAppend (u : Str) (r : Output) (h : History) : History := h ++ [(u, r)]

/-- Modelled from the spec: `get(user_id)` returns the full ordered
sequence, or an empty sequence for a user with no history. -/
def histGet (u : Str) (h : History) : List Output :=
  (h.filter (fun e => e.1 == u)).map (fun e => e.2)

def histEmpty : History := []

structure SynthResult where
  outcome : Except SynthFailure Str
  pool : Pool
  attempts : List (Str × Except Unit Str)

/-- The synthesizer invocation policy of `orchestrate` (lines 87, 118-124):
acquire a key, call; on failure mark that key exhausted, acquire a new key
and retry once; a second failure propagates.  `attempts` records each call
made, in order, with the credential used and its outcome. -/
def synthesize (pool : Pool) (llm : Str → Except Unit Str) : SynthResult :=
  match acquire pool with
  | none => ⟨.error .poolExhausted, pool, []⟩
  | some (k1, p1) =>
    match llm k1 with
    | .ok c => ⟨.ok c, p1, [(k1, .ok c)]⟩
    | .error e1 =>
      let p2 := markExhausted k1 p1
      match acquire p2 with
      | none => ⟨.error .poolExhausted, p2, [(k1, .error e1)]⟩
      | some (k2, p3) =>
        match llm k2 with
        | .ok c => ⟨.ok c, p3, [(k1, .error e1), (k2, .ok c)]⟩
        | .error e2 => ⟨.error .llmFailed, p3, [(k1, .error e1), (k2, .error e2)]⟩

structure RunResult where
  result : Except RunError Output
  pool : Pool
  hist : History
  mem : List Turn
  trace : List Event

/-- `orchestrate`: reset the shared memory, run the four dependent stages
in order (each appending its turn to memory), synthesize over the
accumulated memory with the one-retry credential policy, recover the JSON
fields, build the markdown summary, persist the record.  `mem0` is the
memory content left over from before the run; `reset_memory()` discards
it. -/
def orchestrate (A : Agents) (symptoms : Str) (medical_report : Option Str)
    (user_id : Str) (pool : Pool) (hist : History) (mem0 : List Turn) : RunResult :=
  let symptom_result := A.symptom symptoms
  let lifestyle_result := A.lifestyle symptoms
  let diet_result := A.diet symptoms medical_report lifestyle_result
  let fitness_result := A.fitness symptoms diet_result
  let mem : List Turn :=
    [⟨.agent, symptom_result⟩, ⟨.agent, lifestyle_result⟩,
     ⟨.agent, diet_result⟩, ⟨.agent, fitness_result⟩]
  let pipeTrace : List Event :=
    [.symptomCall symptoms symptom_result, .lifestyleCall symptoms lifestyle_result,
     .dietCall symptoms medical_report lifestyle_result diet_result,
     .fitnessCall symptoms diet_result]
  let syn := synthesize pool A.synth
  let trace := pipeTrace ++ syn.attempts.map (fun a => Event.synthCall a.1 a.2)
  match syn.outcome with
  | .error e => ⟨.error (.synth e), syn.pool, hist, mem, trace⟩
  | .ok content =>
    match processContent content with
    | none => ⟨.error .attributeError, syn.pool, hist, mem, trace⟩
    | some d =>
      let out : Output :=
        ⟨user_id, symptoms, symptom_result, lifestyle_result, diet_result,
         fitness_result, d.1, d.2,
         _build_markdown_table symptom_result lifestyle_result diet_result fitness_result⟩
      ⟨.ok out, syn.pool, histAppend user_id out hist, mem, trace⟩

/-! ## User auth store (`services/user_auth_store.py`) -/

/-- `create_user`: the stored `users.json` list is threaded as explicit
state (a list of username/password entries); the function returns the
boolean result together with the list that is persisted afterwards (the
list is left untouched when the username already exists, since
`_save_users` is not reached). -/
def create_user (users : List (Str × Str)) (username password : Str) :
    Bool × List (Str × Str) :=
  if users.any (fun u => u.1 == username) then (false, users)
  else (true, users ++ [(username, password)])

/-! ## Helper lemmas and test fixtures -/

def dietArgsOf : Event → Option (Str × Option Str × Str × Str)
  | .dietCall q r ln out => some (q, r, ln, out)
  | _ => none

def fitnessArgsOf : Event → Option (Str × Str)
  | .fitnessCall q dn => some (q, dn)
  | _ => none

def synthAttemptOf : Event → Option (Str × Except Unit Str)
  | .synthCall k r => some (k, r)
  | _ => none

theorem filterMap_diet_synth (a : List (Str × Except Unit Str)) :
    (a.map (fun x => Event.synthCall x.1 x.2)).filterMap dietArgsOf = [] := by
  induction a with
  | nil => rfl
  | cons x xs ih => simp [List.filterMap_cons, dietArgsOf, ih]

theorem filterMap_fitness_synth (a : List (Str × Except Unit Str)) :
    (a.map (fun x => Event.synthCall x.1 x.2)).filterMap fitnessArgsOf = [] := by
  induction a with
  | nil => rfl
  | cons x xs ih => simp [List.filterMap_cons, fitnessArgsOf, ih]

theorem filterMap_synth_attempts (a : List (Str × Except Unit Str)) :
    (a.map (fun x => Event.synthCall x.1 x.2)).filterMap synthAttemptOf = a := by
  induction a with
  | nil => rfl
  | cons x xs ih => simp [List.filterMap_cons, synthAttemptOf, ih]

theorem synthesize_ok {pool : Pool} {llm : Str → Except Unit Str} {k1 : Str} {p1 : Pool}
    {c : Str} (h1 : acquire pool = some (k1, p1)) (h2 : llm k1 = .ok c) :
    synthesize pool llm = ⟨.ok c, p1, [(k1, .ok c)]⟩ := by
  simp [synthesize, h1, h2]

theorem synthesize_retry {pool : Pool} {llm : Str → Except Unit Str} {k1 k2 : Str}
    {p1 p3 : Pool} {e1 : Unit} (h1 : acquire pool = some (k1, p1))
    (h2 : llm k1 = .error e1) (h3 : acquire (markExhausted k1 p1) = some (k2, p3)) :
    synthesize pool llm =
      match llm k2 with
      | .ok c => ⟨.ok c, p3, [(k1, .error e1), (k2, .ok c)]⟩
      | .error e2 => ⟨.error .llmFailed, p3, [(k1, .error e1), (k2, .error e2)]⟩ := by
  cases h4 : llm k2 <;> simp [synthesize, h1, h2, h3, h4]

theorem acquire_creds {p : Pool} {k : Str} {p' : Pool}
    (h : acquire p = some (k, p')) : p'.creds = p.creds := by
  unfold acquire at h
  split at h
  · split at h
    · simp only [Option.some.injEq, Prod.mk.injEq] at h
      rw [← h.2]
    · cases h
  · cases h

/-- Agents with fixed outputs, used to instantiate theorems at concrete runs. -/
def testAgents (synthBehavior : Str → Except Unit Str) : Agents :=
  ⟨fun _ => chars ("S"), fun _ => chars ("L"), fun _ _ _ => chars ("D"),
   fun _ _ => chars ("F"), synthBehavior⟩

def testPool : Pool := ⟨[⟨chars ("k1"), false⟩, ⟨chars ("k2"), false⟩], 0⟩

/-! ## Claims -/

/-- Claim C10: `create_user` returns `False` and leaves the stored user
list unchanged when a user with the given username already exists, and
otherwise appends exactly one new entry for that username, returns `True`,
and keeps all existing entries unchanged. -/
theorem create_user_unique_username (users : List (Str × Str)) (username password : Str) :
    ((∃ u ∈ users, u.1 = username) →
      create_user users username password = (false, users)) ∧
    ((∀ u ∈ users, u.1 ≠ username) →
      create_user users username password = (true, users ++ [(username, password)])) := by
  constructor
  · intro h
    have ha : users.any (fun u => u.1 == username) = true := by
      rw [List.any_eq_true]
      obtain ⟨u, hu, he⟩ := h
      exact ⟨u, hu, by simp [he]⟩
    simp [create_user, ha]
  · intro h
    have ha : ¬ users.any (fun u => u.1 == username) = true := by
      rw [List.any_eq_true]
      rintro ⟨u, hu, he⟩
      exact h u hu (by simpa using he)
    simp [create_user, ha]

theorem create_user_unique_username_witness :
    create_user [(chars ("alice"), chars ("pw"))] (chars ("alice")) (chars ("x")) =
      (false, [(chars ("alice"), chars ("pw"))]) ∧
    create_user [(chars ("alice"), chars ("pw"))] (chars ("bob")) (chars ("x")) =
      (true, [(chars ("alice"), chars ("pw")), (chars ("bob"), chars ("x"))]) := by
  constructor
  · exact (create_user_unique_username [(chars ("alice"), chars ("pw"))] (chars ("alice"))
      (chars ("x"))).1 ⟨(chars ("alice"), chars ("pw")), by simp⟩
  · exact (create_user_unique_username [(chars ("alice"), chars ("pw"))] (chars ("bob"))
      (chars ("x"))).2 (by decide)

/-- Claim C7: the conversation memory is cleared of any leftover content
`mem0` before the run, and after the full pipeline it holds exactly the
four stage turns in declaration order (symptom, lifestyle, diet, fitness),
on every control path of the run. -/
theorem memory_reset_and_four_turns (A : Agents) (symptoms : Str)
    (medical_report : Option Str) (user_id : Str) (pool : Pool) (hist : History)
    (mem0 : List Turn) :
    (orchestrate A symptoms medical_report user_id pool hist mem0).mem =
      [⟨.agent, A.symptom symptoms⟩, ⟨.agent, A.lifestyle symptoms⟩,
       ⟨.agent, A.diet symptoms medical_report (A.lifestyle symptoms)⟩,
       ⟨.agent, A.fitness symptoms (A.diet symptoms medical_report (A.lifestyle symptoms))⟩] := by
  simp only [orchestrate]
  rcases h : synthesize pool A.synth with ⟨o, p', a⟩
  cases o with
  | error e => rfl
  | ok c => cases hp : processContent c <;> simp [hp]

/-- Claim C4: in every orchestration run the diet stage is called exactly
once, with the query text, the optional report text and the lifestyle
stage's output, and the fitness stage is called exactly once, with the
query text and the diet stage's output verbatim as its diet notes. -/
theorem stage_data_dependencies (A : Agents) (symptoms : Str)
    (medical_report : Option Str) (user_id : Str) (pool : Pool) (hist : History)
    (mem0 : List Turn) :
    (orchestrate A symptoms medical_report user_id pool hist mem0).trace.filterMap dietArgsOf =
      [(symptoms, medical_report, A.lifestyle symptoms,
        A.diet symptoms medical_report (A.lifestyle symptoms))] ∧
    (orchestrate A symptoms medical_report user_id pool hist mem0).trace.filterMap fitnessArgsOf =
      [(symptoms, A.diet symptoms medical_report (A.lifestyle symptoms))] := by
  simp only [orchestrate]
  rcases h : synthesize pool A.synth with ⟨o, p', a⟩
  cases o with
  | error e =>
    simp [List.filterMap_append, filterMap_diet_synth, filterMap_fitness_synth,
      List.filterMap_cons, dietArgsOf, fitnessArgsOf]
  | ok c =>
    cases hp : processContent c <;>
      simp [hp, List.filterMap_append, filterMap_diet_synth, filterMap_fitness_synth,
        List.filterMap_cons, dietArgsOf, fitnessArgsOf]

theorem orchestrate_ok_eq {A : Agents} {symptoms : Str} {medical_report : Option Str}
    {user_id : Str} {pool : Pool} {hist : History} {mem0 : List Turn} {k1 : Str}
    {p1 : Pool} {c : Str} {d : Json × Json}
    (h1 : acquire pool = some (k1, p1)) (h2 : A.synth k1 = .ok c)
    (h3 : processContent c = some d) :
    orchestrate A symptoms medical_report user_id pool hist mem0 =
      ⟨.ok ⟨user_id, symptoms, A.symptom symptoms, A.lifestyle symptoms,
            A.diet symptoms medical_report (A.lifestyle symptoms),
            A.fitness symptoms (A.diet symptoms medical_report (A.lifestyle symptoms)),
            d.1, d.2,
            _build_markdown_table (A.symptom symptoms) (A.lifestyle symptoms)
              (A.diet symptoms medical_report (A.lifestyle symptoms))
              (A.fitness symptoms (A.diet symptoms medical_report (A.lifestyle symptoms)))⟩,
       p1,
       histAppend user_id
         ⟨user_id, symptoms, A.symptom symptoms, A.lifestyle symptoms,
          A.diet symptoms medical_report (A.lifestyle symptoms),
          A.fitness symptoms (A.diet symptoms medical_report (A.lifestyle symptoms)),
          d.1, d.2,
          _build_markdown_table (A.symptom symptoms) (A.lifestyle symptoms)
            (A.diet symptoms medical_report (A.lifestyle symptoms))
            (A.fitness symptoms (A.diet symptoms medical_report (A.lifestyle symptoms)))⟩ hist,
       [⟨.agent, A.symptom symptoms⟩, ⟨.agent, A.lifestyle symptoms⟩,
        ⟨.agent, A.diet symptoms medical_report (A.lifestyle symptoms)⟩,
        ⟨.agent, A.fitness symptoms (A.diet symptoms medical_report (A.lifestyle symptoms))⟩],
       [.symptomCall symptoms (A.symptom symptoms),
        .lifestyleCall symptoms (A.lifestyle symptoms),
        .dietCall symptoms medical_report (A.lifestyle symptoms)
          (A.diet symptoms medical_report (A.lifestyle symptoms)),
        .fitnessCall symptoms (A.diet symptoms medical_report (A.lifestyle symptoms)),
        .synthCall k1 (.ok c)]⟩ := by
  have hs := synthesize_ok h1 h2
  simp [orchestrate, hs, h3]

/-- Claim C2: when the fence-stripped synthesizer reply does not parse as
JSON, the run still completes successfully, with the whole raw text as
`synthesized_guidance` and an empty `recommendations` sequence. -/
theorem orchestrate_unparsable_raw_fallback
    (A : Agents) (symptoms : Str) (medical_report : Option Str) (user_id : Str)
    (pool : Pool) (hist : History) (mem0 : List Turn) (k1 : Str) (p1 : Pool) (c : Str)
    (h1 : acquire pool = some (k1, p1)) (h2 : A.synth k1 = .ok c)
    (h3 : parseJson (stripFences (pyStrip c)) = none) :
    (orchestrate A symptoms medical_report user_id pool hist mem0).result =
      .ok ⟨user_id, symptoms, A.symptom symptoms, A.lifestyle symptoms,
           A.diet symptoms medical_report (A.lifestyle symptoms),
           A.fitness symptoms (A.diet symptoms medical_report (A.lifestyle symptoms)),
           .jstr (stripFences (pyStrip c)), .jarr [],
           _build_markdown_table (A.symptom symptoms) (A.lifestyle symptoms)
             (A.diet symptoms medical_report (A.lifestyle symptoms))
             (A.fitness symptoms (A.diet symptoms medical_report (A.lifestyle symptoms)))⟩ := by
  have hp : processContent c = some (.jstr (stripFences (pyStrip c)), .jarr []) := by
    simp [processContent, h3]
  rw [orchestrate_ok_eq h1 h2 hp]

theorem orchestrate_unparsable_raw_fallback_witness :
    (orchestrate
        (testAgents (fun _ => .ok (chars ("Sure, here is some advice: rest and hydrate."))))
        (chars ("q")) none (chars ("u")) testPool [] []).result =
      .ok ⟨chars ("u"), chars ("q"), chars ("S"), chars ("L"), chars ("D"), chars ("F"),
           .jstr (chars ("Sure, here is some advice: rest and hydrate.")), .jarr [],
           _build_markdown_table (chars ("S")) (chars ("L")) (chars ("D")) (chars ("F"))⟩ :=
  orchestrate_unparsable_raw_fallback _ (chars ("q")) none (chars ("u")) testPool [] []
    (chars ("k1")) ⟨testPool.creds, 1⟩
    (chars ("Sure, here is some advice: rest and hydrate.")) rfl rfl rfl

/-- Claim C9: when the fence-stripped synthesizer reply parses as a JSON
object, the run's result takes `synthesized_guidance` from that object's
field (defaulting to the empty string when absent) and `recommendations`
from that object's field (defaulting to the empty sequence when absent),
with later duplicate members winning as in a Python dict. -/
theorem parsed_object_field_extraction
    (A : Agents) (symptoms : Str) (medical_report : Option Str) (user_id : Str)
    (pool : Pool) (hist : History) (mem0 : List Turn) (k1 : Str) (p1 : Pool) (c : Str)
    (kvs : List (Str × Json))
    (h1 : acquire pool = some (k1, p1)) (h2 : A.synth k1 = .ok c)
    (h3 : parseJson (stripFences (pyStrip c)) = some (.jobj kvs)) :
    (orchestrate A symptoms medical_report user_id pool hist mem0).result =
      .ok ⟨user_id, symptoms, A.symptom symptoms, A.lifestyle symptoms,
           A.diet symptoms medical_report (A.lifestyle symptoms),
           A.fitness symptoms (A.diet symptoms medical_report (A.lifestyle symptoms)),
           (lookupLast kvs sgKey).getD (.jstr []),
           (lookupLast kvs recKey).getD (.jarr []),
           _build_markdown_table (A.symptom symptoms) (A.lifestyle symptoms)
             (A.diet symptoms medical_report (A.lifestyle symptoms))
             (A.fitness symptoms (A.diet symptoms medical_report (A.lifestyle symptoms)))⟩ := by
  have hp : processContent c =
      some ((lookupLast kvs sgKey).getD (.jstr []), (lookupLast kvs recKey).getD (.jarr [])) := by
    simp [processContent, h3]
  rw [orchestrate_ok_eq h1 h2 hp]

theorem parsed_object_field_extraction_witness :
    (orchestrate
        (testAgents (fun _ =>
          .ok (chars ("\x7b\"synthesized_guidance\":\"g\",\"recommendations\":[\"a\"]\x7d"))))
        (chars ("q")) none (chars ("u")) testPool [] []).result =
      .ok ⟨chars ("u"), chars ("q"), chars ("S"), chars ("L"), chars ("D"), chars ("F"),
           .jstr (chars ("g")), .jarr [.jstr (chars ("a"))],
           _build_markdown_table (chars ("S")) (chars ("L")) (chars ("D")) (chars ("F"))⟩ ∧
    (orchestrate (testAgents (fun _ => .ok (chars ("\x7b\"x\":1\x7d"))))
        (chars ("q")) none (chars ("u")) testPool [] []).result =
      .ok ⟨chars ("u"), chars ("q"), chars ("S"), chars ("L"), chars ("D"), chars ("F"),
           .jstr [], .jarr [],
           _build_markdown_table (chars ("S")) (chars ("L")) (chars ("D")) (chars ("F"))⟩ :=
  ⟨parsed_object_field_extraction _ (chars ("q")) none (chars ("u")) testPool [] []
      (chars ("k1")) ⟨testPool.creds, 1⟩ _
      [(sgKey, .jstr (chars ("g"))), (recKey, .jarr [.jstr (chars ("a"))])] rfl rfl rfl,
   parsed_object_field_extraction _ (chars ("q")) none (chars ("u")) testPool [] []
      (chars ("k1")) ⟨testPool.creds, 1⟩ _
      [(chars ("x"), .jnum (chars ("1")))] rfl rfl rfl⟩

/-- Claim C8: a completed run appends exactly one session record to the
requesting user's history, leaving every previously stored record (for
this and every other user) untouched; the history of a user with no
records is the empty sequence; and two successive appends for the same
user leave both records in chronological order. -/
theorem history_append_only
    (A : Agents) (symptoms : Str) (medical_report : Option Str) (user_id : Str)
    (pool : Pool) (hist : History) (mem0 : List Turn) (k1 : Str) (p1 : Pool) (c : Str)
    (d : Json × Json)
    (h1 : acquire pool = some (k1, p1)) (h2 : A.synth k1 = .ok c)
    (h3 : processContent c = some d) :
    (∃ out, (orchestrate A symptoms medical_report user_id pool hist mem0).result = .ok out ∧
      (orchestrate A symptoms medical_report user_id pool hist mem0).hist =
        histAppend user_id out hist ∧
      histGet user_id ((orchestrate A symptoms medical_report user_id pool hist mem0).hist) =
        histGet user_id hist ++ [out] ∧
      ∀ u, u ≠ user_id →
        histGet u ((orchestrate A symptoms medical_report user_id pool hist mem0).hist) =
          histGet u hist) ∧
    (∀ u, histGet u histEmpty = []) ∧
    (∀ (h0 : History) (u : Str) (r1 r2 : Output),
      histGet u (histAppend u r2 (histAppend u r1 h0)) = histGet u h0 ++ [r1, r2]) := by
  rw [orchestrate_ok_eq h1 h2 h3]
  refine ⟨⟨_, rfl, rfl, ?_, ?_⟩, fun u => rfl, ?_⟩
  · simp [histGet, histAppend, List.filter_append]
  · intro u hu
    have : (user_id == u) = false := by
      simp only [beq_eq_false_iff_ne, ne_eq]
      exact fun h => hu h.symm
    simp [histGet, histAppend, List.filter_append, this]
  · intro h0 u r1 r2
    simp [histGet, histAppend, List.filter_append]

theorem history_append_only_witness :
    (∃ out,
      (orchestrate (testAgents (fun _ => .ok (chars ("hi")))) (chars ("q")) none
          (chars ("u")) testPool [] []).result = .ok out ∧
      (orchestrate (testAgents (fun _ => .ok (chars ("hi")))) (chars ("q")) none
          (chars ("u")) testPool [] []).hist = histAppend (chars ("u")) out [] ∧
      histGet (chars ("u"))
          ((orchestrate (testAgents (fun _ => .ok (chars ("hi")))) (chars ("q")) none
            (chars ("u")) testPool [] []).hist) =
        histGet (chars ("u")) [] ++ [out] ∧
      ∀ u, u ≠ chars ("u") →
        histGet u
            ((orchestrate (testAgents (fun _ => .ok (chars ("hi")))) (chars ("q")) none
              (chars ("u")) testPool [] []).hist) =
          histGet u []) ∧
    (∀ u, histGet u histEmpty = []) ∧
    (∀ (h0 : History) (u : Str) (r1 r2 : Output),
      histGet u (histAppend u r2 (histAppend u r1 h0)) = histGet u h0 ++ [r1, r2]) :=
  history_append_only (testAgents (fun _ => .ok (chars ("hi")))) (chars ("q")) none
    (chars ("u")) testPool [] [] (chars ("k1")) ⟨testPool.creds, 1⟩ (chars ("hi"))
    (.jstr (chars ("hi")), .jarr []) rfl rfl rfl

/-- Claim C1: when the first synthesizer call fails, the credential used is
marked exhausted, a fresh credential is acquired and the call is retried
exactly once (the attempt log of the run holds exactly two synthesizer
attempts); when that second call also fails the run terminates with a
service failure, leaving the history untouched. -/
theorem orchestrate_retry_exactly_once
    (A : Agents) (symptoms : Str) (medical_report : Option Str) (user_id : Str)
    (pool : Pool) (hist : History) (mem0 : List Turn) (k1 k2 : Str) (p1 p3 : Pool)
    (e1 e2 : Unit)
    (h1 : acquire pool = some (k1, p1)) (h2 : A.synth k1 = .error e1)
    (h3 : acquire (markExhausted k1 p1) = some (k2, p3)) (h4 : A.synth k2 = .error e2) :
    (orchestrate A symptoms medical_report user_id pool hist mem0).trace.filterMap
        synthAttemptOf = [(k1, .error e1), (k2, .error e2)] ∧
    (orchestrate A symptoms medical_report user_id pool hist mem0).result =
      .error (.synth .llmFailed) ∧
    (orchestrate A symptoms medical_report user_id pool hist mem0).hist = hist ∧
    (orchestrate A symptoms medical_report user_id pool hist mem0).pool = p3 ∧
    (∀ cr ∈ p3.creds, cr.key = k1 → cr.exhausted = true) := by
  have hs : synthesize pool A.synth =
      ⟨.error .llmFailed, p3, [(k1, .error e1), (k2, .error e2)]⟩ := by
    rw [synthesize_retry h1 h2 h3, h4]
  refine ⟨?_, ?_, ?_, ?_, ?_⟩
  · simp [orchestrate, hs, List.filterMap_append, List.filterMap_cons, synthAttemptOf]
  · simp [orchestrate, hs]
  · simp [orchestrate, hs]
  · simp [orchestrate, hs]
  · intro cr hcr hkey
    rw [acquire_creds h3] at hcr
    simp only [markExhausted, List.mem_map] at hcr
    obtain ⟨c0, hc0, hf⟩ := hcr
    by_cases hk : c0.key == k1
    · rw [if_pos hk] at hf
      rw [← hf]
    · rw [if_neg hk] at hf
      rw [← hf] at hkey
      exact absurd (by simp [hkey]) hk

theorem orchestrate_retry_exactly_once_witness :
    (orchestrate (testAgents (fun _ => .error ())) (chars ("q")) none (chars ("u"))
        testPool [] []).trace.filterMap synthAttemptOf =
      [(chars ("k1"), .error ()), (chars ("k2"), .error ())] ∧
    (orchestrate (testAgents (fun _ => .error ())) (chars ("q")) none (chars ("u"))
        testPool [] []).result = .error (.synth .llmFailed) ∧
    (orchestrate (testAgents (fun _ => .error ())) (chars ("q")) none (chars ("u"))
        testPool [] []).hist = [] ∧
    (orchestrate (testAgents (fun _ => .error ())) (chars ("q")) none (chars ("u"))
        testPool [] []).pool = ⟨[⟨chars ("k1"), true⟩, ⟨chars ("k2"), false⟩], 0⟩ ∧
    (∀ cr ∈ (⟨[⟨chars ("k1"), true⟩, ⟨chars ("k2"), false⟩], 0⟩ : Pool).creds,
      cr.key = chars ("k1") → cr.exhausted = true) :=
  orchestrate_retry_exactly_once (testAgents (fun _ => .error ())) (chars ("q")) none
    (chars ("u")) testPool [] [] (chars ("k1")) (chars ("k2")) ⟨testPool.creds, 1⟩
    ⟨[⟨chars ("k1"), true⟩, ⟨chars ("k2"), false⟩], 0⟩ () () rfl rfl rfl rfl

theorem find?_eq_some_of_unique {α : Type} {q : α → Bool} {l : List α} {a : α}
    (ha : a ∈ l) (hqa : q a = true) (huniq : ∀ b ∈ l, q b = true → b = a) :
    l.find? q = some a := by
  induction l with
  | nil => cases ha
  | cons x xs ih =>
    by_cases hx : q x = true
    · have hxa : x = a := huniq x (List.mem_cons_self x xs) hx
      subst hxa
      rw [List.find?_cons_of_pos _ hx]
    · rw [List.find?_cons_of_neg _ (by simpa using hx)]
      have hax : a ∈ xs := by
        rcases List.mem_cons.mp ha with h | h
        · subst h; exact absurd hqa hx
        · exact h
      exact ih hax (fun b hb hqb => huniq b (List.mem_cons_of_mem _ hb) hqb)

theorem mem_scanOrder {p : Pool} {j : Nat} (hj : j < p.creds.length) :
    j ∈ scanOrder p := by
  have hn : 0 < p.creds.length := lt_of_le_of_lt (Nat.zero_le j) hj
  have hcm : p.cursor % p.creds.length < p.creds.length := Nat.mod_lt _ hn
  simp only [scanOrder, List.mem_map, List.mem_range]
  refine ⟨(j + p.creds.length - p.cursor % p.creds.length) % p.creds.length,
    Nat.mod_lt _ hn, ?_⟩
  have h1 : p.cursor ≡ p.cursor % p.creds.length [MOD p.creds.length] :=
    (Nat.mod_modEq p.cursor p.creds.length).symm
  have h2 : (j + p.creds.length - p.cursor % p.creds.length) % p.creds.length ≡
      j + p.creds.length - p.cursor % p.creds.length [MOD p.creds.length] :=
    Nat.mod_modEq _ _
  have h3 := h1.add h2
  have h4 : p.cursor % p.creds.length +
      (j + p.creds.length - p.cursor % p.creds.length) = j + p.creds.length := by
    omega
  rw [h4] at h3
  have h5 : (p.cursor +
      (j + p.creds.length - p.cursor % p.creds.length) % p.creds.length) %
        p.creds.length = (j + p.creds.length) % p.creds.length := h3
  rw [h5, Nat.add_mod_right, Nat.mod_eq_of_lt hj]

theorem scanOrder_lt {p : Pool} : ∀ x ∈ scanOrder p, x < p.creds.length := by
  intro x hx
  simp only [scanOrder, List.mem_map, List.mem_range] at hx
  obtain ⟨i, hi, rfl⟩ := hx
  exact Nat.mod_lt _ (lt_of_le_of_lt (Nat.zero_le i) hi)

theorem availAt_eq {p : Pool} {i : Nat} (h : i < p.creds.length) :
    availAt p i = !(p.creds.get ⟨i, h⟩).exhausted := by
  simp [availAt, List.getElem?_eq_getElem h]

/-- Claim C6: in a pool where exactly one credential (at index `j`) is
still available, `acquire` returns that credential — skipping the
exhausted entries while advancing the cursor cyclically, whatever the
cursor position — and once that credential is marked exhausted too, a
further `acquire` fails with the pool-exhausted condition (`none`). -/
theorem pool_single_available_then_exhausted
    (p : Pool) (j : Nat) (hj : j < p.creds.length)
    (hav : availAt p j = true)
    (hothers : ∀ i, i < p.creds.length → i ≠ j → availAt p i = false) :
    acquire p = some ((p.creds.get ⟨j, hj⟩).key,
      ⟨p.creds, (j + 1) % p.creds.length⟩) ∧
    acquire (markExhausted ((p.creds.get ⟨j, hj⟩).key)
      ⟨p.creds, (j + 1) % p.creds.length⟩) = none := by
  have hfind : (scanOrder p).find? (fun i => availAt p i) = some j := by
    refine find?_eq_some_of_unique (mem_scanOrder hj) hav ?_
    intro b hb hqb
    by_contra hne
    rw [hothers b (scanOrder_lt b hb) hne] at hqb
    cases hqb
  constructor
  · unfold acquire
    rw [hfind]
    simp [List.getElem?_eq_getElem hj, List.get_eq_getElem]
  · set pk := (p.creds.get ⟨j, hj⟩).key with hpk
    set p' : Pool := ⟨p.creds, (j + 1) % p.creds.length⟩ with hp'
    set q : Pool := markExhausted pk p' with hq
    have hqcreds : q.creds = p.creds.map
        (fun c => if c.key == pk then ⟨c.key, true⟩ else c) := rfl
    have hqlen : q.creds.length = p.creds.length := by
      rw [hqcreds, List.length_map]
    have hnone : (scanOrder q).find? (fun i => availAt q i) = none := by
      rw [List.find?_eq_none]
      intro x hx
      have hxq : x < q.creds.length := scanOrder_lt x hx
      have hxp : x < p.creds.length := by rw [← hqlen]; exact hxq
      rw [availAt_eq hxq]
      have hget : q.creds.get ⟨x, hxq⟩ =
          if (p.creds.get ⟨x, hxp⟩).key == pk
          then (⟨(p.creds.get ⟨x, hxp⟩).key, true⟩ : Credential)
          else p.creds.get ⟨x, hxp⟩ := by
        simp [hqcreds, List.get_eq_getElem, List.getElem_map]
      rw [hget]
      by_cases hxj : x = j
      · subst hxj
        rw [if_pos (by rw [hpk]; exact beq_self_eq_true _)]
        simp
      · have hexh : (p.creds.get ⟨x, hxp⟩).exhausted = true := by
          have h5 := hothers x hxp hxj
          rw [availAt_eq hxp] at h5
          simpa using h5
        by_cases hk : (p.creds.get ⟨x, hxp⟩).key == pk
        · rw [if_pos hk]
          simp
        · rw [if_neg hk]
          simp only [List.get_eq_getElem] at hexh
          simp [hexh]
    unfold acquire
    rw [hnone]

theorem pool_single_available_then_exhausted_witness :
    acquire ⟨[⟨chars ("a"), true⟩, ⟨chars ("b"), false⟩, ⟨chars ("c"), true⟩], 2⟩ =
      some (chars ("b"),
        ⟨[⟨chars ("a"), true⟩, ⟨chars ("b"), false⟩, ⟨chars ("c"), true⟩], 2⟩) ∧
    acquire (markExhausted (chars ("b"))
      ⟨[⟨chars ("a"), true⟩, ⟨chars ("b"), false⟩, ⟨chars ("c"), true⟩], 2⟩) = none := by
  have h := pool_single_available_then_exhausted
    ⟨[⟨chars ("a"), true⟩, ⟨chars ("b"), false⟩, ⟨chars ("c"), true⟩], 2⟩ 1
    (by decide) rfl
    (fun i hi hne => by
      have h3 : i < 3 := by simpa using hi
      interval_cases i
      · rfl
      · exact absurd rfl hne
      · rfl)
  exact h

theorem dropWhileApp (p : Char → Bool) (a b : Str) :
    List.dropWhile p (a ++ b) =
      if List.dropWhile p a = [] then List.dropWhile p b
      else List.dropWhile p a ++ b := by
  induction a with
  | nil => simp
  | cons x xs ih =>
    by_cases hx : p x
    · simp only [List.cons_append, List.dropWhile_cons, hx, if_true, ih]
    · simp [List.dropWhile_cons, hx]

theorem rstrip_append_newline (x : Str) : rstrip (x ++ ['\n']) = rstrip x := by
  unfold rstrip
  rw [List.reverse_append]
  have h : (['\n'] : Str).reverse ++ x.reverse = '\n' :: x.reverse := rfl
  rw [h]
  have h2 : List.dropWhile isPySpace ('\n' :: x.reverse) =
      List.dropWhile isPySpace x.reverse := rfl
  rw [h2]

theorem stripFences_fenced (inner : Str) :
    stripFences (chars ("```json\n") ++ inner ++ chars ("\n```")) = pyStrip inner := by
  unfold stripFences
  have hcond : (chars ("```json\n") ++ inner ++ chars ("\n```")).take 3 = chars ("```") := rfl
  rw [if_pos hcond]
  have hr1 : List.dropWhile isPySpace (List.dropWhile Char.isAlpha
      ((chars ("```json\n") ++ inner ++ chars ("\n```")).drop 3)) =
      List.dropWhile isPySpace (inner ++ chars ("\n```")) := rfl
  rw [hr1, dropWhileApp]
  rcases eq_or_ne (List.dropWhile isPySpace inner) [] with hc | hc
  · rw [if_pos hc]
    have h2 : List.dropWhile isPySpace (chars ("\n```")) = chars ("```") := rfl
    rw [h2]
    have h3 : dropTrailingFence (chars ("```")) = [] := rfl
    rw [h3]
    unfold pyStrip lstrip
    rw [hc]
    rfl
  · rw [if_neg hc]
    unfold dropTrailingFence
    have h4 : (List.dropWhile isPySpace inner ++ chars ("\n```")).reverse =
        '`' :: '`' :: '`' :: '\n' :: (List.dropWhile isPySpace inner).reverse := by
      rw [List.reverse_append]
      rfl
    rw [h4]
    have h5 : ('`' :: '`' :: '`' :: '\n' ::
        (List.dropWhile isPySpace inner).reverse).take 3 = chars ("```") := rfl
    rw [if_pos h5]
    have h6 : ('`' :: '`' :: '`' :: '\n' ::
        (List.dropWhile isPySpace inner).reverse).drop 3 =
        '\n' :: (List.dropWhile isPySpace inner).reverse := rfl
    rw [h6, List.reverse_cons, List.reverse_reverse, rstrip_append_newline]
    rfl

/-- Claim C3: a synthesizer reply wrapped in a leading and a trailing
code-fence marker has the fences stripped before JSON parsing — the text
handed to the parser is exactly the stripped unfenced payload — so the
fenced JSON object of the spec's example parses successfully and yields
the recommendations `["Rest", "Hydrate"]`. -/
theorem fence_stripping_before_parse :
    (∀ inner : Str,
      stripFences (pyStrip (chars ("```json\n") ++ inner ++ chars ("\n```"))) =
        pyStrip inner) ∧
    processContent (chars
        ("```json\n\x7b\"synthesized_guidance\":\"...\",\"recommendations\":[\"Rest\",\"Hydrate\"]\x7d\n```")) =
      some (.jstr (chars ("...")),
        .jarr [.jstr (chars ("Rest")), .jstr (chars ("Hydrate"))]) := by
  constructor
  · intro inner
    have hstrip : pyStrip (chars ("```json\n") ++ inner ++ chars ("\n```")) =
        chars ("```json\n") ++ inner ++ chars ("\n```") := by
      unfold pyStrip
      have h1 : lstrip (chars ("```json\n") ++ inner ++ chars ("\n```")) =
          chars ("```json\n") ++ inner ++ chars ("\n```") := rfl
      rw [h1]
      unfold rstrip
      rw [List.reverse_append]
      have h2 : (chars ("\n```")).reverse ++ (chars ("```json\n") ++ inner).reverse =
          '`' :: '`' :: '`' :: '\n' :: (chars ("```json\n") ++ inner).reverse := rfl
      rw [h2]
      have h3 : List.dropWhile isPySpace
          ('`' :: '`' :: '`' :: '\n' :: (chars ("```json\n") ++ inner).reverse) =
          '`' :: '`' :: '`' :: '\n' :: (chars ("```json\n") ++ inner).reverse := rfl
      rw [h3, ← h2, ← List.reverse_append, List.reverse_reverse]
    rw [hstrip, stripFences_fenced]
  · rfl

/-! ## Claim C5: shape of the rendered summary -/

/-- The spec-side rendering of one non-empty stage: its labelled heading,
a newline, and the stripped stage output. -/
def blockOf (title text : Str) : Str := headingOf title ++ '\n' :: pyStrip text

/-- The spec-side block list: one block per non-empty stage output, in the
fixed order symptom, lifestyle, diet, fitness. -/
def specBlocks (sy l d f : Str) : List Str :=
  (if sy = [] then [] else [blockOf (chars ("Symptom agent")) sy]) ++
  (if l = [] then [] else [blockOf (chars ("Lifestyle agent")) l]) ++
  (if d = [] then [] else [blockOf (chars ("Diet agent")) d]) ++
  (if f = [] then [] else [blockOf (chars ("Fitness agent")) f])

/-- Adjacent lines are never both blank. -/
abbrev sepR (a b : Str) : Prop := a = [] → b ≠ []

/-- A stage output that renders cleanly: either empty (omitted), or not
whitespace-only and free of two adjacent blank lines in its stripped text.
A single interior blank line (a markdown paragraph break) is allowed. -/
def goodText (t : Str) : Prop :=
  t = [] ∨ (pyStrip t ≠ [] ∧ List.Chain' sepR (linesOf (pyStrip t)))

theorem linesOf_ne_nil (s : Str) : linesOf s ≠ [] := by
  induction s with
  | nil => simp [linesOf]
  | cons c cs ih =>
    by_cases hc : c = '\n'
    · simp [linesOf, hc]
    · rcases h : linesOf cs with _ | ⟨x, xs⟩ <;> simp [linesOf, hc, h]

theorem linesOf_append_newline (xs ys : Str) :
    linesOf (xs ++ '\n' :: ys) = linesOf xs ++ linesOf ys := by
  induction xs with
  | nil => simp [linesOf]
  | cons c cs ih =>
    by_cases hc : c = '\n'
    · simp [linesOf, hc, ih]
    · rcases h : linesOf cs with _ | ⟨x, xs'⟩
      · exact absurd h (linesOf_ne_nil cs)
      · rw [List.cons_append]
        simp only [linesOf, hc, if_false, ih, h, List.cons_append]

theorem dropWhile_head_false (p : Char → Bool) (l : Str) :
    ∀ c t, List.dropWhile p l = c :: t → p c = false := by
  induction l with
  | nil => intro c t h; cases h
  | cons x xs ih =>
    intro c t h
    by_cases hx : p x
    · rw [List.dropWhile_cons, if_pos hx] at h
      exact ih c t h
    · rw [List.dropWhile_cons, if_neg hx] at h
      injection h with h1 h2
      subst h1
      simpa using hx

theorem rstrip_getLast_not_space (s : Str) :
    ∀ c, (rstrip s).getLast? = some c → isPySpace c = false := by
  intro c hc
  unfold rstrip at hc
  rw [List.getLast?_reverse] at hc
  rcases hd : List.dropWhile isPySpace s.reverse with _ | ⟨x, t⟩
  · rw [hd] at hc; cases hc
  · rw [hd] at hc
    simp only [List.head?_cons, Option.some.injEq] at hc
    subst hc
    exact dropWhile_head_false isPySpace s.reverse x t hd

/-- The stripped text of a stage never ends in a newline, so its last
line is never blank. -/
theorem linesOf_getLast_ne (s : Str) (hs : s ≠ [])
    (hlast : ∀ c, s.getLast? = some c → c ≠ '\n') :
    ∀ x, (linesOf s).getLast? = some x → x ≠ [] := by
  induction s with
  | nil => exact absurd rfl hs
  | cons c cs ih =>
    rcases cs with _ | ⟨c2, cs2⟩
    · have hc : c ≠ '\n' := hlast c rfl
      intro x hx
      have hl : linesOf [c] = [[c]] := by simp [linesOf, hc]
      rw [hl, List.getLast?_singleton] at hx
      cases hx
      simp
    · have hlast' : ∀ ch, (c2 :: cs2).getLast? = some ch → ch ≠ '\n' := by
        intro ch hch
        exact hlast ch (by rw [List.getLast?_cons_cons]; exact hch)
      have ih' := ih (by simp) hlast'
      intro x hx
      by_cases hc : c = '\n'
      · have hl : linesOf (c :: c2 :: cs2) = [] :: linesOf (c2 :: cs2) := by
          simp [linesOf, hc]
        rw [hl] at hx
        rcases hL : linesOf (c2 :: cs2) with _ | ⟨l, ls⟩
        · exact absurd hL (linesOf_ne_nil _)
        · rw [hL, List.getLast?_cons_cons] at hx
          exact ih' x (by rw [hL]; exact hx)
      · rcases hL : linesOf (c2 :: cs2) with _ | ⟨l, ls⟩
        · exact absurd hL (linesOf_ne_nil _)
        · have hl : linesOf (c :: c2 :: cs2) = (c :: l) :: ls := by
            conv_lhs => rw [linesOf]
            rw [if_neg hc, hL]
          rw [hl] at hx
          rcases ls with _ | ⟨l2, ls2⟩
          · rw [List.getLast?_singleton] at hx
            cases hx
            simp
          · rw [List.getLast?_cons_cons] at hx
            exact ih' x (by rw [hL, List.getLast?_cons_cons]; exact hx)

theorem chain'_joinSep_blocks (bs : List Str) (hbs : bs ≠ [])
    (hchain : ∀ b ∈ bs, List.Chain' sepR (linesOf b))
    (hhead : ∀ b ∈ bs, ∀ y ∈ (linesOf b).head?, y ≠ [])
    (hlast : ∀ b ∈ bs, ∀ y ∈ (linesOf b).getLast?, y ≠ []) :
    List.Chain' sepR (linesOf (joinSep (chars ("\n\n")) bs)) ∧
    (∀ y ∈ (linesOf (joinSep (chars ("\n\n")) bs)).head?, y ≠ []) := by
  induction bs with
  | nil => exact absurd rfl hbs
  | cons b bs ih =>
    rcases bs with _ | ⟨b2, bs'⟩
    · constructor
      · simpa [joinSep] using hchain b (List.mem_cons_self b [])
      · intro y hy
        simp only [joinSep] at hy
        exact hhead b (List.mem_cons_self b []) y hy
    · obtain ⟨hch, hhd⟩ := ih (by simp)
        (fun bb hb => hchain bb (List.mem_cons_of_mem _ hb))
        (fun bb hb => hhead bb (List.mem_cons_of_mem _ hb))
        (fun bb hb => hlast bb (List.mem_cons_of_mem _ hb))
      have hshape : joinSep (chars ("\n\n")) (b :: b2 :: bs') =
          b ++ '\n' :: '\n' :: joinSep (chars ("\n\n")) (b2 :: bs') := by
        have e2 : chars ("\n\n") = ['\n', '\n'] := rfl
        simp [joinSep, e2, List.append_assoc]
      rw [hshape, linesOf_append_newline]
      have hlines2 : linesOf ('\n' :: joinSep (chars ("\n\n")) (b2 :: bs')) =
          [] :: linesOf (joinSep (chars ("\n\n")) (b2 :: bs')) := by
        simp [linesOf]
      rw [hlines2]
      constructor
      · rw [List.chain'_append]
        refine ⟨hchain b (List.mem_cons_self _ _), ?_, ?_⟩
        · rw [List.chain'_cons']
          exact ⟨fun y hy _ => hhd y hy, hch⟩
        · intro x hx y hy hxe
          exact absurd hxe (hlast b (List.mem_cons_self _ _) x hx)
      · intro y hy
        rcases hl : linesOf b with _ | ⟨a, as⟩
        · exact absurd hl (linesOf_ne_nil b)
        · rw [hl] at hy
          simp only [List.cons_append, List.head?_cons, Option.mem_def,
            Option.some.injEq] at hy
          subst hy
          exact hhead b (List.mem_cons_self _ _) a (by rw [hl]; rfl)

theorem blockOf_lines_good {title t : Str}
    (htitle : linesOf (headingOf title) = [headingOf title])
    (hhead : headingOf title ≠ [])
    (hne : pyStrip t ≠ [])
    (hch : List.Chain' sepR (linesOf (pyStrip t))) :
    List.Chain' sepR (linesOf (blockOf title t)) ∧
    (∀ y ∈ (linesOf (blockOf title t)).head?, y ≠ []) ∧
    (∀ y ∈ (linesOf (blockOf title t)).getLast?, y ≠ []) := by
  have hlines : linesOf (blockOf title t) = headingOf title :: linesOf (pyStrip t) := by
    unfold blockOf
    rw [linesOf_append_newline, htitle]
    rfl
  have hlastchar : ∀ c, (pyStrip t).getLast? = some c → c ≠ '\n' := by
    intro c hcl hceq
    subst hceq
    have h5 := rstrip_getLast_not_space (lstrip t) '\n' hcl
    exact absurd h5 (by decide)
  have hlastline : ∀ y ∈ (linesOf (pyStrip t)).getLast?, y ≠ [] := by
    intro y hy
    exact linesOf_getLast_ne (pyStrip t) hne hlastchar y (Option.mem_def.mp hy)
  refine ⟨?_, ?_, ?_⟩
  · rw [hlines, List.chain'_cons']
    exact ⟨fun y hy hh => absurd hh hhead, hch⟩
  · intro y hy
    rw [hlines] at hy
    simp only [List.head?_cons, Option.mem_def, Option.some.injEq] at hy
    subst hy
    exact hhead
  · intro y hy
    rw [hlines] at hy
    rcases hL : linesOf (pyStrip t) with _ | ⟨l, ls⟩
    · exact absurd hL (linesOf_ne_nil _)
    · rw [hL, List.getLast?_cons_cons] at hy
      exact hlastline y (by rw [hL]; exact hy)

/-- Claim C5 counterexample: for the stage outputs `(" ", "x", "", "")` the
rendered summary contains two consecutive blank lines — the whitespace-only
symptom output is truthy, so its heading is emitted with an empty stripped
body, and the body line plus the separator line are both blank.  This
refutes the claim's unconditional no-two-consecutive-blank-lines sentence. -/
theorem rendered_summary_blank_lines_counterexample :
    ¬ List.Chain' sepR
      (linesOf (_build_markdown_table (chars (" ")) (chars ("x")) [] [])) := by
  intro h
  have hl : linesOf (_build_markdown_table (chars (" ")) (chars ("x")) [] []) =
      [chars ("**Symptom agent**"), [], [],
       chars ("**Lifestyle agent**"), chars ("x")] := rfl
  rw [hl] at h
  obtain ⟨h1, h2⟩ := List.chain'_cons.mp h
  obtain ⟨h3, h4⟩ := List.chain'_cons.mp h2
  exact h3 rfl rfl

/-- Claim C5 (amended): the rendered summary is exactly the blocks of the
non-empty stage outputs — a labelled heading above the stripped output —
in the fixed order symptom, lifestyle, diet, fitness, joined by single
blank-line separators, with empty outputs contributing nothing; and
whenever no stage output is whitespace-only and no stage output carries
two adjacent blank lines inside its stripped text (the two situations the
counterexample family exhibits; a single interior blank line is fine),
the summary contains no two consecutive blank lines. -/
theorem rendered_summary_structure (sy l d f : Str) :
    _build_markdown_table sy l d f = joinSep (chars ("\n\n")) (specBlocks sy l d f) ∧
    (goodText sy → goodText l → goodText d → goodText f →
      List.Chain' sepR (linesOf (_build_markdown_table sy l d f))) := by
  have e1 : chars ("\n") = ['\n'] := rfl
  have e2 : chars ("\n\n") = ['\n', '\n'] := rfl
  have heq : _build_markdown_table sy l d f =
      joinSep (chars ("\n\n")) (specBlocks sy l d f) := by
    rcases eq_or_ne sy [] with h1 | h1 <;> rcases eq_or_ne l [] with h2 | h2 <;>
      rcases eq_or_ne d [] with h3 | h3 <;> rcases eq_or_ne f [] with h4 | h4 <;>
      simp [_build_markdown_table, addBlock, specBlocks, joinSep, blockOf, e1, e2,
        h1, h2, h3, h4, List.append_assoc]
  refine ⟨heq, fun g1 g2 g3 g4 => ?_⟩
  rw [heq]
  rcases eq_or_ne (specBlocks sy l d f) [] with hb | hb
  · rw [hb]
    have h0 : linesOf (joinSep (chars ("\n\n")) []) = [[]] := rfl
    rw [h0]
    simp
  · have hblocks : ∀ b ∈ specBlocks sy l d f,
        List.Chain' sepR (linesOf b) ∧
        (∀ y ∈ (linesOf b).head?, y ≠ []) ∧
        (∀ y ∈ (linesOf b).getLast?, y ≠ []) := by
      intro b hbm
      simp only [specBlocks, List.mem_append] at hbm
      rcases hbm with ((hb1 | hb2) | hb3) | hb4
      · rcases eq_or_ne sy [] with h | h
        · rw [if_pos h] at hb1; simp at hb1
        · rw [if_neg h] at hb1
          rw [List.mem_singleton] at hb1
          subst hb1
          obtain ⟨hne, hch⟩ := g1.resolve_left h
          exact blockOf_lines_good rfl (by decide) hne hch
      · rcases eq_or_ne l [] with h | h
        · rw [if_pos h] at hb2; simp at hb2
        · rw [if_neg h] at hb2
          rw [List.mem_singleton] at hb2
          subst hb2
          obtain ⟨hne, hch⟩ := g2.resolve_left h
          exact blockOf_lines_good rfl (by decide) hne hch
      · rcases eq_or_ne d [] with h | h
        · rw [if_pos h] at hb3; simp at hb3
        · rw [if_neg h] at hb3
          rw [List.mem_singleton] at hb3
          subst hb3
          obtain ⟨hne, hch⟩ := g3.resolve_left h
          exact blockOf_lines_good rfl (by decide) hne hch
      · rcases eq_or_ne f [] with h | h
        · rw [if_pos h] at hb4; simp at hb4
        · rw [if_neg h] at hb4
          rw [List.mem_singleton] at hb4
          subst hb4
          obtain ⟨hne, hch⟩ := g4.resolve_left h
          exact blockOf_lines_good rfl (by decide) hne hch
    exact (chain'_joinSep_blocks _ hb (fun b hb' => (hblocks b hb').1)
      (fun b hb' => (hblocks b hb').2.1) (fun b hb' => (hblocks b hb').2.2)).1

theorem rendered_summary_structure_witness :
    _build_markdown_table (chars ("a\n\nb")) [] (chars ("c")) [] =
      joinSep (chars ("\n\n")) (specBlocks (chars ("a\n\nb")) [] (chars ("c")) []) ∧
    List.Chain' sepR
      (linesOf (_build_markdown_table (chars ("a\n\nb")) [] (chars ("c")) [])) := by
  have hch1 : List.Chain' sepR (linesOf (pyStrip (chars ("a\n\nb")))) := by
    have hl : linesOf (pyStrip (chars ("a\n\nb"))) =
        [chars ("a"), [], chars ("b")] := rfl
    rw [hl]
    refine List.chain'_cons.mpr ⟨fun h => absurd h (by decide), ?_⟩
    refine List.chain'_cons.mpr ⟨fun h5 => by decide, ?_⟩
    exact List.chain'_singleton _
  have hch2 : List.Chain' sepR (linesOf (pyStrip (chars ("c")))) := by
    have hl : linesOf (pyStrip (chars ("c"))) = [chars ("c")] := rfl
    rw [hl]
    exact List.chain'_singleton _
  exact ⟨(rendered_summary_structure (chars ("a\n\nb")) [] (chars ("c")) []).1,
    (rendered_summary_structure (chars ("a\n\nb")) [] (chars ("c")) []).2
      (Or.inr ⟨by decide, hch1⟩) (Or.inl rfl) (Or.inr ⟨by decide, hch2⟩) (Or.inl rfl)⟩
